import Mathlib

/-
Verification of the foot-measurement pipeline of `src/app.py`.

The repository's own code is the Flask orchestration (`calculate_foot_size`,
`upload_image`, `allowed_file_type`) together with the constant
`CONVERSION_FACTOR = 0.2`.  The image-processing stages it invokes
(`cv2.cvtColor`, `cv2.GaussianBlur`, `cv2.Canny`, `cv2.findContours`,
`cv2.contourArea`, `cv2.boundingRect`) are external library calls whose code
is not part of the repository; they are modelled here from the design
document's description of each stage.  Pixel intensities and all physical
quantities are modelled over ℚ (the source's floating-point arithmetic is
abstracted to exact rational arithmetic).
-/

/-- A position in a pixel grid: (x, y) with x the column and y the row. -/

abbrev Pos := ℕ × ℕ

/-- 8-neighbour adjacency of two grid positions (Chebyshev distance ≤ 1,
distinct points). -/

def adj8 (p q : Pos) : Prop := p ≠ q ∧ p.1.dist q.1 ≤ 1 ∧ p.2.dist q.2 ≤ 1

instance (p q : Pos) : Decidable (adj8 p q) := by
  unfold adj8; infer_instance

/-- 4-neighbour adjacency of two grid positions (used for background
connectivity, the complement of 8-connected foreground). -/

def adj4 (p q : Pos) : Prop :=
  (p.1 = q.1 ∧ p.2.dist q.2 = 1) ∨ (p.2 = q.2 ∧ p.1.dist q.1 = 1)

instance (p q : Pos) : Decidable (adj4 p q) := by
  unfold adj4; infer_instance

/-- A pixel grid: `width × height` cells carrying a value of type `α`.
`data` is total; only the cells with coordinates below `width`/`height`
belong to the grid. -/

@[ext]

structure Grid (α : Type) where
  width : ℕ
  height : ℕ
  data : ℕ → ℕ → α

/-- The set of in-range positions of a grid. -/

def positions {α : Type} (g : Grid α) : Finset Pos :=
  Finset.range g.width ×ˢ Finset.range g.height

/-- Clamp an integer index into `[0, n)` (replicated border handling for
reads outside the grid). -/

def clampIdx (n : ℕ) (i : ℤ) : ℕ :=
  if i < 0 then 0 else min i.toNat (n - 1)

/-- Read a rational-valued grid at integer coordinates, clamping at the
border. -/

def gridAt (g : Grid ℚ) (x y : ℤ) : ℚ :=
  g.data (clampIdx g.width x) (clampIdx g.height y)

/-- A decoded colour image: a grid of (B, G, R) channel triples, as produced
by the external decoder (`cv2.imread`). -/

@[ext]

structure Image where
  width : ℕ
  height : ℕ
  data : ℕ → ℕ → ℚ × ℚ × ℚ

/-- Modelled from the spec: `cv2.cvtColor(img, cv2.COLOR_BGR2GRAY)` — the
Preprocessor's `grayscale`, converting a 3-channel colour grid to a
single-channel intensity grid with the fixed luminance weighting
Y = 0.299·R + 0.587·G + 0.114·B. -/

def grayscale (img : Image) : Grid ℚ :=
  ⟨img.width, img.height, fun x y =>
    (299 / 1000) * (img.data x y).2.2 + (587 / 1000) * (img.data x y).2.1 +
      (114 / 1000) * (img.data x y).1⟩

/-- The 5-tap Gaussian kernel used for a 5×5 blur with derived sigma:
weights (1, 4, 6, 4, 1)/16, paired with their offsets. -/

def kernel5 : List (ℤ × ℚ) :=
  [(-2, 1 / 16), (-1, 4 / 16), (0, 6 / 16), (1, 4 / 16), (2, 1 / 16)]

/-- Modelled from the spec: `cv2.GaussianBlur(gray, (5, 5), 0)` — the
Preprocessor's `smooth`, a separable Gaussian blur with a square odd-size
(5×5) kernel.  `smoothH` is the horizontal pass, border reads clamped to
the grid. -/

def smoothH (g : Grid ℚ) : Grid ℚ :=
  ⟨g.width, g.height, fun x y =>
    (kernel5.map (fun kv => kv.2 * gridAt g ((x : ℤ) + kv.1) (y : ℤ))).sum⟩

/-- Vertical pass composed with the horizontal pass: the full 5×5 separable
blur. -/

def smooth (g : Grid ℚ) : Grid ℚ :=
  ⟨g.width, g.height, fun x y =>
    (kernel5.map (fun kv => kv.2 * gridAt (smoothH g) (x : ℤ) ((y : ℤ) + kv.1))).sum⟩

/-- Absolute value on ℚ, written as an executable conditional. -/

def absQ (q : ℚ) : ℚ := if q < 0 then -q else q

/-- Horizontal 3×3 Sobel response at integer coordinates (border reads
clamped by `gridAt`). -/

def sobelX (g : Grid ℚ) (x y : ℤ) : ℚ :=
  gridAt g (x + 1) (y - 1) + 2 * gridAt g (x + 1) y +
      gridAt g (x + 1) (y + 1) - gridAt g (x - 1) (y - 1) -
      2 * gridAt g (x - 1) y - gridAt g (x - 1) (y + 1)

/-- Vertical 3×3 Sobel response at integer coordinates. -/

def sobelY (g : Grid ℚ) (x y : ℤ) : ℚ :=
  gridAt g (x - 1) (y + 1) + 2 * gridAt g x (y + 1) +
      gridAt g (x + 1) (y + 1) - gridAt g (x - 1) (y - 1) -
      2 * gridAt g x (y - 1) - gridAt g (x + 1) (y - 1)

/-- Gradient magnitude at integer coordinates: the two Sobel responses
combined with the L1 norm. -/

def gradMagAt (g : Grid ℚ) (x y : ℤ) : ℚ :=
  absQ (sobelX g x y) + absQ (sobelY g x y)

/-- Gradient magnitude at a grid position. -/

def gradMag (g : Grid ℚ) (p : Pos) : ℚ := gradMagAt g p.1 p.2

/-- The sector constant tan(22.5°) in the fixed-point approximation
13573/2¹⁵ used by the reference implementation's direction
quantization. -/

def tg22 : ℚ := 13573 / 32768

/-- The gradient direction at integer coordinates, quantized to the nearest
of the four principal directions and returned as the offset of the forward
neighbour along that direction: horizontal when the direction is within
22.5° of the x axis, vertical when within 22.5° of the y axis, otherwise
the diagonal matching the signs of the two responses. -/

def nmsDir (g : Grid ℚ) (x y : ℤ) : ℤ × ℤ :=
  let gx := sobelX g x y
  let gy := sobelY g x y
  if absQ gy < tg22 * absQ gx then (1, 0)
  else if (2 + tg22) * absQ gx < absQ gy then (0, 1)
  else if (0 ≤ gx ∧ 0 ≤ gy) ∨ (gx ≤ 0 ∧ gy ≤ 0) then (1, 1)
  else (1, -1)

/-- Non-maximum suppression across the gradient direction: a pixel survives
when its gradient magnitude is not exceeded by either of its two neighbours
along the quantized gradient direction. -/

def nmsPass (g : Grid ℚ) (p : Pos) : Prop :=
  gradMagAt g ((p.1 : ℤ) + (nmsDir g p.1 p.2).1)
      ((p.2 : ℤ) + (nmsDir g p.1 p.2).2) ≤ gradMag g p ∧
  gradMagAt g ((p.1 : ℤ) - (nmsDir g p.1 p.2).1)
      ((p.2 : ℤ) - (nmsDir g p.1 p.2).2) ≤ gradMag g p

instance (g : Grid ℚ) (p : Pos) : Decidable (nmsPass g p) := by
  unfold nmsPass; infer_instance

/-- One step of hysteresis propagation over the NMS-surviving pixels: keep
every in-range pixel that survives non-maximum suppression and is a strong
edge (gradient magnitude above `high`), or survives NMS as a weak pixel
(magnitude above `low`, below `high`) 8-adjacent to a pixel already
classified as an edge. -/

def hystStep (g : Grid ℚ) (low high : ℚ) (E : Finset Pos) : Finset Pos :=
  (positions g).filter (fun p =>
    (nmsPass g p ∧ high < gradMag g p) ∨
      ((nmsPass g p ∧ low < gradMag g p ∧ gradMag g p < high) ∧
        ∃ q ∈ E, adj8 p q))

/-- Modelled from the spec: `cv2.Canny(blurred, low, high)` — the Edge
Extractor's `detectEdges`: gradient computation, non-maximum suppression
across the gradient direction, then hysteresis thresholding with the
weak-edge propagation run to its (least) fixed point. -/

def detectEdges (g : Grid ℚ) (low high : ℚ) : Finset Pos :=
  (hystStep g low high)^[(positions g).card + 1] ∅

/-- The binary edge map of the spec's data model: a Bool grid of the same
dimensions as the intensity grid, true exactly at detected edge pixels. -/

def edgeMapOf (g : Grid ℚ) (low high : ℚ) : Grid Bool :=
  ⟨g.width, g.height, fun x y => decide ((x, y) ∈ detectEdges g low high)⟩

/-- Row-major enumeration of the positions of a `w × h` grid. -/

def ptList (w h : ℕ) : List Pos :=
  (List.range w).flatMap (fun x => (List.range h).map (fun y => (x, y)))

/-- Deterministic ordered point list of a pixel set within a `w × h`
grid. -/

def toContourList (w h : ℕ) (c : Finset Pos) : List Pos :=
  (ptList w h).filter (fun p => decide (p ∈ c))

/-- One step of connected-component growth inside an edge set `E`:
keep every edge pixel already collected or 8-adjacent to a collected
pixel. -/

def compStep (E : Finset Pos) (S : Finset Pos) : Finset Pos :=
  E.filter (fun q => q ∈ S ∨ ∃ r ∈ S, adj8 q r)

/-- The 8-connected component of `p` inside the edge set `E`, computed by
growing to a fixed point. -/

def reachFrom (E : Finset Pos) (p : Pos) : Finset Pos :=
  (compStep E)^[E.card + 1] {p}

/-- All 8-connected components of the edge set `E` of a `w × h` edge map
(each listed once). -/

def components (E : Finset Pos) (w h : ℕ) : List (Finset Pos) :=
  (((ptList w h).filter (fun p => decide (p ∈ E))).map
    (fun p => reachFrom E p)).dedup

/-- A position on the border of a `w × h` grid. -/

def OnBorder (w h : ℕ) (p : Pos) : Prop :=
  p.1 = 0 ∨ p.2 = 0 ∨ p.1 + 1 = w ∨ p.2 + 1 = h

instance (w h : ℕ) (p : Pos) : Decidable (OnBorder w h p) := by
  unfold OnBorder; infer_instance

/-- All positions of a `w × h` grid. -/

def allPos (w h : ℕ) : Finset Pos := Finset.range w ×ˢ Finset.range h

/-- One step of background flood fill from the grid border: keep every
non-edge pixel already collected or 4-adjacent to a collected pixel. -/

def bgStep (E : Finset Pos) (w h : ℕ) (S : Finset Pos) : Finset Pos :=
  ((allPos w h) \ E).filter (fun q => q ∈ S ∨ ∃ r ∈ S, adj4 q r)

/-- Background pixels reachable from the grid border without crossing the
edge set `E` (4-connectivity for the background). -/

def bgReach (E : Finset Pos) (w h : ℕ) : Finset Pos :=
  (bgStep E w h)^[(allPos w h).card + 1]
    (((allPos w h) \ E).filter (fun q => OnBorder w h q))

/-- A component is topologically outermost when some of its pixels touch the
grid border or a background pixel that is flood-reachable from the border;
a component entirely enclosed by another boundary has neither. -/

def IsOutermost (E : Finset Pos) (w h : ℕ) (c : Finset Pos) : Prop :=
  ∃ p ∈ c, OnBorder w h p ∨ ∃ q ∈ bgReach E w h, adj8 p q

instance (E : Finset Pos) (w h : ℕ) (c : Finset Pos) :
    Decidable (IsOutermost E w h c) := by
  unfold IsOutermost; infer_instance

/-- A contour: an ordered sequence of integer grid points tracing a
boundary. -/

abbrev Contour := List Pos

/-- Modelled from the spec: `cv2.findContours(edged, cv2.RETR_EXTERNAL,
cv2.CHAIN_APPROX_SIMPLE)` — the Contour Finder: group connected edge pixels
into boundaries and retain only the topologically outermost ones.  Point
order within a contour is a deterministic enumeration of the component (the
spec leaves the point encoding loose: collinear intermediate points may be
omitted without changing the traced shape). -/

def findContours (E : Finset Pos) (w h : ℕ) : List Contour :=
  ((components E w h).filter (fun c => decide (IsOutermost E w h c))).map
    (fun c => toContourList w h c)

/-- Signed doubled polygon area of a contour by the shoelace formula over
its ordered points (cyclically closed). -/

def shoelace (c : Contour) : ℤ :=
  ((c.zip (c.rotate 1)).map (fun pq =>
    (pq.1.1 : ℤ) * (pq.2.2 : ℤ) - (pq.2.1 : ℤ) * (pq.1.2 : ℤ))).sum

/-- Modelled from the spec: `cv2.contourArea` — the enclosed area of a
contour, the absolute value of the shoelace/polygon-area formula over its
ordered points. -/

def contourArea (c : Contour) : ℚ := ((shoelace c).natAbs : ℚ) / 2

/-- Fold step of Python's `max(..., key=...)`: replace the current best only
on a strictly larger key, so the first-encountered maximum wins ties. -/

def pickLarger (b c : Contour) : Contour :=
  if contourArea b < contourArea c then c else b

/-- The Candidate Selector: `max(contours, key=cv2.contourArea)` guarded by
the emptiness test of `calculate_foot_size` (src/app.py lines 69–71) —
`None` on an empty contour list, otherwise the first contour of maximal
area. -/

def selectLargest (cs : List Contour) : Option Contour :=
  match cs with
  | [] => none
  | c :: rest => some (rest.foldl pickLarger c)

/-- Minimum of a list of naturals (0 for the empty list). -/

def listMin : List ℕ → ℕ
  | [] => 0
  | x :: xs => xs.foldl min x

/-- Maximum of a list of naturals (0 for the empty list). -/

def listMax : List ℕ → ℕ
  | [] => 0
  | x :: xs => xs.foldl max x

/-- Smallest x coordinate of a contour. -/

def minX (c : Contour) : ℕ := listMin (c.map Prod.fst)

/-- Largest x coordinate of a contour. -/

def maxX (c : Contour) : ℕ := listMax (c.map Prod.fst)

/-- Smallest y coordinate of a contour. -/

def minY (c : Contour) : ℕ := listMin (c.map Prod.snd)

/-- Largest y coordinate of a contour. -/

def maxY (c : Contour) : ℕ := listMax (c.map Prod.snd)

/-- Modelled from the spec: `cv2.boundingRect(largest_contour)` — the
minimal axis-aligned bounding box `(x, y, width, height)` of a contour,
computed from the min/max of its x and y coordinates. -/

def boundingRect (c : Contour) : ℤ × ℤ × ℤ × ℤ :=
  ((minX c : ℤ), (minY c : ℤ),
    (maxX c : ℤ) - (minX c : ℤ), (maxY c : ℤ) - (minY c : ℤ))

/-- Rounding to two decimal digits, `round(q, 2)` of src/app.py line 83
(the float tie-breaking rule is abstracted to rounding of exact
rationals). -/

def round2 (q : ℚ) : ℚ := ((round (q * 100) : ℤ) : ℚ) / 100

/-- The Measurer (src/app.py lines 75–83): bounding-box width times the
conversion factor, rounded to two decimal digits.  The bounding-box height
is computed by `boundingRect` but unused. -/

def measureContour (c : Contour) (factor : ℚ) : ℚ :=
  round2 ((boundingRect c).2.2.1 * factor)

/-- The conversion factor of src/app.py line 35: 0.2 cm per pixel. -/

def CONVERSION_FACTOR : ℚ := 2 / 10

/-- Result of `cv2.imread(image_path)` at the start of
`calculate_foot_size`: the external decoder either fails (`img is None`) or
yields a colour image. -/
inductive LoadResult
  | fail
  | ok (img : Image)

/-- The contour stage of the pipeline on a decoded image: grayscale, 5×5
Gaussian blur, Canny with thresholds (50, 150), outer contours
(src/app.py lines 58–67). -/

def pipelineContours (img : Image) : List Contour :=
  let gray := grayscale img
  let blurred := smooth gray
  let edged := detectEdges blurred 50 150
  findContours edged blurred.width blurred.height

/-- `calculate_foot_size` of src/app.py lines 44–91, with the log written by
its `logging` calls made explicit: decode failure and the empty contour list
both produce `none`; otherwise the largest contour is measured with the
global conversion factor.  The surrounding `try/except` also maps any
internal error to `none`; in this total model the failure paths are exactly
the explicit `none` branches. -/

def calculate_foot_size_logged (r : LoadResult) (factor : ℚ)
    (log : List String) : Option ℚ × List String :=
  match r with
  | LoadResult.fail =>
      (none, log ++ [("Nao foi possivel carregar a imagem")])
  | LoadResult.ok img =>
      match selectLargest (pipelineContours img) with
      | some c =>
          (some (measureContour c factor),
            log ++ [("Maior contorno encontrado para processamento")])
      | none =>
          (none, log ++ [("Nenhum contorno encontrado na imagem")])

/-- The value returned by `calculate_foot_size` (the log is discarded by the
caller). -/

def calculate_foot_size (r : LoadResult) : Option ℚ :=
  (calculate_foot_size_logged r CONVERSION_FACTOR []).1

/-- The spec's single core operation `measureObject(imageBytes,
conversionFactor)`: decode the bytes through the external decoder, then run
`calculate_foot_size`'s pipeline, threading the explicit log state. -/

def measureObject (decode : List ℕ → LoadResult) (bytes : List ℕ)
    (factor : ℚ) (log : List String) : Option ℚ × List String :=
  calculate_foot_size_logged (decode bytes) factor log

/-- `allowed_file_type` of src/app.py lines 37–42, over the character list
of the base64 payload string. -/

def allowed_file_type (image_data : List Char) : Bool :=
  List.isPrefixOf (("data:image/png;").toList) image_data ||
    List.isPrefixOf (("data:image/jpeg;").toList) image_data

/-- An upload request as `upload_image` sees it: whether an `image` field is
present, its data-URL payload, and the decoder's result on the saved
bytes. -/

structure Request where
  hasImage : Bool
  image_data : List Char
  load : LoadResult

/-- An HTTP response of `upload_image`: status code, message, and the
optional measured size. -/

abbrev Response := ℕ × String × Option ℚ

/-- `upload_image` of src/app.py lines 93–143 (file persistence and logging
elided): reject a missing image or a disallowed MIME type, otherwise answer
from `calculate_foot_size`'s result. -/

def upload_image (req : Request) : Response :=
  if req.hasImage = false then
    (400, ("Nenhuma imagem fornecida."), none)
  else if allowed_file_type req.image_data = false then
    (400, ("Tipo de imagem nao permitido. Apenas PNG ou JPG sao aceitos."),
      none)
  else
    match calculate_foot_size req.load with
    | some v =>
        (200, ("Imagem processada com sucesso!"), some v)
    | none =>
        (400, ("Nao foi possivel detectar o pe na imagem."), none)

/-- A concrete 1×1 all-black test image: the pipeline finds no contour in
it. -/
def blankImg : Image := ⟨1, 1, fun _ _ => (0, 0, 0)⟩

/-- A concrete 2×3 uniform-intensity test grid. -/
def uniformGrid : Grid ℚ := ⟨2, 3, fun _ _ => 7⟩

/-- A concrete one-point test contour (area 0). -/
def dotContour : Contour := [(0, 0)]

/-- A concrete triangular test contour of area 2. -/
def triContour : Contour := [(0, 0), (2, 0), (2, 2)]

/-- A concrete two-point test contour spanning x ∈ [1, 4], y ∈ [0, 2]. -/
def mContour : Contour := [(1, 2), (4, 0)]

/-- A concrete data-URL payload with an allowed PNG MIME type. -/
def pngPayload : List Char := ("data:image/png;base64,AAAA").toList

/-- A concrete 5×1 intensity ramp 0, 100, 200, 200, 200: the pixel at x = 2
has gradient magnitude 400 but its left neighbour has magnitude 800, so
non-maximum suppression discards it. -/
def rampGrid : Grid ℚ :=
  ⟨5, 1, fun x _ => if x = 0 then 0 else if x = 1 then 100 else 200⟩

section FixedPoint

variable {α : Type}

lemma iterate_mono_chain (f : Finset α → Finset α) (hf : Monotone f)
    (S₀ : Finset α) (h₀ : S₀ ⊆ f S₀) : ∀ n, f^[n] S₀ ⊆ f^[n + 1] S₀ := by
  intro n
  induction n with
  | zero => simpa using h₀
  | succ n ih =>
      rw [Function.iterate_succ_apply', Function.iterate_succ_apply']
      exact hf ih

lemma card_le_iterate (f : Finset α → Finset α) (hf : Monotone f)
    (S₀ : Finset α) (h₀ : S₀ ⊆ f S₀) (U : Finset α)
    (hne : ∀ n ≤ U.card, f^[n + 1] S₀ ≠ f^[n] S₀) :
    ∀ n ≤ U.card + 1, n ≤ (f^[n] S₀).card := by
  intro n hn
  induction n with
  | zero => exact Nat.zero_le _
  | succ n ih =>
      have hle : f^[n] S₀ ≤ f^[n + 1] S₀ := iterate_mono_chain f hf S₀ h₀ n
      have hlt : f^[n] S₀ < f^[n + 1] S₀ :=
        lt_of_le_of_ne hle (fun h => hne n (by omega) h.symm)
      have hcard := Finset.card_lt_card hlt
      have hn' := ih (by omega)
      omega

lemma iterate_fixed_point (f : Finset α → Finset α) (hf : Monotone f)
    (S₀ : Finset α) (h₀ : S₀ ⊆ f S₀) (U : Finset α) (hU : ∀ S, f S ⊆ U) :
    f (f^[U.card + 1] S₀) = f^[U.card + 1] S₀ := by
  have hex : ∃ n, n ≤ U.card ∧ f^[n + 1] S₀ = f^[n] S₀ := by
    by_contra hcon
    push_neg at hcon
    have hbig := card_le_iterate f hf S₀ h₀ U
      (fun n hn h => hcon n hn h) (U.card + 1) le_rfl
    have hsub : f^[U.card + 1] S₀ ⊆ U := by
      rw [Function.iterate_succ_apply']
      exact hU _
    have := Finset.card_le_card hsub
    omega
  obtain ⟨n, hn, hfix⟩ := hex
  have hprop : ∀ m, f^[m + n] S₀ = f^[n] S₀ := by
    intro m
    induction m with
    | zero => simp
    | succ m ih =>
        have hmn : m + 1 + n = (m + n) + 1 := by omega
        rw [hmn, Function.iterate_succ_apply', ih,
          ← Function.iterate_succ_apply' f n S₀, hfix]
  have hkey : f^[U.card + 1] S₀ = f^[n] S₀ := by
    have hsplit : U.card + 1 = (U.card + 1 - n) + n := by omega
    rw [hsplit, hprop]
  rw [hkey, ← Function.iterate_succ_apply' f n S₀, hfix]

lemma iterate_succ_subset_of (f : Finset α → Finset α) (U : Finset α)
    (hU : ∀ S, f S ⊆ U) (S₀ : Finset α) (n : ℕ) : f^[n + 1] S₀ ⊆ U := by
  rw [Function.iterate_succ_apply']
  exact hU _

end FixedPoint

lemma mem_positions {α : Type} (g : Grid α) (p : Pos) :
    p ∈ positions g ↔ p.1 < g.width ∧ p.2 < g.height := by
  simp [positions, Finset.mem_product]

lemma absQ_eq_abs (q : ℚ) : absQ q = |q| := by
  unfold absQ
  by_cases h : q < 0
  · rw [if_pos h, abs_of_neg h]
  · rw [if_neg h, abs_of_nonneg (not_lt.mp h)]

lemma hystStep_mono (g : Grid ℚ) (low high : ℚ) :
    Monotone (hystStep g low high) := by
  intro E E' hEE p hp
  simp only [hystStep, Finset.mem_filter] at hp ⊢
  obtain ⟨hpos, hcond⟩ := hp
  refine ⟨hpos, ?_⟩
  rcases hcond with hstrong | ⟨hweak, q, hqE, hadj⟩
  · exact Or.inl hstrong
  · exact Or.inr ⟨hweak, q, hEE hqE, hadj⟩

lemma detectEdges_fixed (g : Grid ℚ) (low high : ℚ) :
    hystStep g low high (detectEdges g low high) = detectEdges g low high :=
  iterate_fixed_point (hystStep g low high) (hystStep_mono g low high) ∅
    (Finset.empty_subset _) (positions g)
    (fun _ => Finset.filter_subset _ _)

lemma detectEdges_subset (g : Grid ℚ) (low high : ℚ) :
    detectEdges g low high ⊆ positions g := by
  unfold detectEdges
  exact iterate_succ_subset_of _ (positions g)
    (fun _ => Finset.filter_subset _ _) ∅ _

lemma mem_ptList (w h : ℕ) (p : Pos) :
    p ∈ ptList w h ↔ p.1 < w ∧ p.2 < h := by
  simp only [ptList, List.mem_flatMap, List.mem_map, List.mem_range]
  constructor
  · rintro ⟨x, hx, y, hy, rfl⟩
    exact ⟨hx, hy⟩
  · rintro ⟨h1, h2⟩
    exact ⟨p.1, h1, p.2, h2, rfl⟩

lemma mem_toContourList (w h : ℕ) (c : Finset Pos) (p : Pos) :
    p ∈ toContourList w h c ↔ (p.1 < w ∧ p.2 < h) ∧ p ∈ c := by
  simp [toContourList, List.mem_filter, mem_ptList]

lemma compStep_mono (E : Finset Pos) : Monotone (compStep E) := by
  intro S S' hSS q hq
  simp only [compStep, Finset.mem_filter] at hq ⊢
  obtain ⟨hqE, hcond⟩ := hq
  refine ⟨hqE, ?_⟩
  rcases hcond with hmem | ⟨r, hrS, hadj⟩
  · exact Or.inl (hSS hmem)
  · exact Or.inr ⟨r, hSS hrS, hadj⟩

lemma reachFrom_subset (E : Finset Pos) (p : Pos) : reachFrom E p ⊆ E := by
  unfold reachFrom
  exact iterate_succ_subset_of _ E (fun _ => Finset.filter_subset _ _) {p} _

lemma mem_components (E : Finset Pos) (w h : ℕ) (c : Finset Pos) :
    c ∈ components E w h ↔
      ∃ p, ((p.1 < w ∧ p.2 < h) ∧ p ∈ E) ∧ c = reachFrom E p := by
  simp only [components, List.mem_dedup, List.mem_map, List.mem_filter,
    mem_ptList, decide_eq_true_eq]
  constructor
  · rintro ⟨p, hp, rfl⟩
    exact ⟨p, hp, rfl⟩
  · rintro ⟨p, hp, rfl⟩
    exact ⟨p, hp, rfl⟩

lemma foldl_min_le_init (xs : List ℕ) : ∀ a : ℕ, xs.foldl min a ≤ a := by
  induction xs with
  | nil => intro a; exact le_rfl
  | cons x xs ih =>
      intro a
      calc (x :: xs).foldl min a = xs.foldl min (min a x) := rfl
        _ ≤ min a x := ih (min a x)
        _ ≤ a := min_le_left a x

lemma le_foldl_max_init (xs : List ℕ) : ∀ a : ℕ, a ≤ xs.foldl max a := by
  induction xs with
  | nil => intro a; exact le_rfl
  | cons x xs ih =>
      intro a
      calc a ≤ max a x := le_max_left a x
        _ ≤ xs.foldl max (max a x) := ih (max a x)
        _ = (x :: xs).foldl max a := rfl

lemma foldl_min_le_of_mem (xs : List ℕ) :
    ∀ a x, x ∈ xs → xs.foldl min a ≤ x := by
  induction xs with
  | nil => intro a x hx; cases hx
  | cons y ys ih =>
      intro a x hx
      rcases List.mem_cons.mp hx with rfl | hx'
      · calc (x :: ys).foldl min a = ys.foldl min (min a x) := rfl
          _ ≤ min a x := foldl_min_le_init ys (min a x)
          _ ≤ x := min_le_right a x
      · exact ih (min a y) x hx'

lemma le_foldl_max_of_mem (xs : List ℕ) :
    ∀ a x, x ∈ xs → x ≤ xs.foldl max a := by
  induction xs with
  | nil => intro a x hx; cases hx
  | cons y ys ih =>
      intro a x hx
      rcases List.mem_cons.mp hx with rfl | hx'
      · calc x ≤ max a x := le_max_right a x
          _ ≤ ys.foldl max (max a x) := le_foldl_max_init ys (max a x)
          _ = (x :: ys).foldl max a := rfl
      · exact ih (max a y) x hx'

lemma foldl_min_mem (xs : List ℕ) :
    ∀ a, xs.foldl min a = a ∨ xs.foldl min a ∈ xs := by
  induction xs with
  | nil => intro a; exact Or.inl rfl
  | cons y ys ih =>
      intro a
      rcases ih (min a y) with hcase | hcase
      · have : (y :: ys).foldl min a = min a y := hcase
        rcases min_choice a y with hmin | hmin
        · exact Or.inl (this.trans hmin)
        · exact Or.inr (by rw [this, hmin]; exact List.mem_cons_self y ys)
      · exact Or.inr (List.mem_cons_of_mem y hcase)

lemma foldl_max_mem (xs : List ℕ) :
    ∀ a, xs.foldl max a = a ∨ xs.foldl max a ∈ xs := by
  induction xs with
  | nil => intro a; exact Or.inl rfl
  | cons y ys ih =>
      intro a
      rcases ih (max a y) with hcase | hcase
      · have : (y :: ys).foldl max a = max a y := hcase
        rcases max_choice a y with hmax | hmax
        · exact Or.inl (this.trans hmax)
        · exact Or.inr (by rw [this, hmax]; exact List.mem_cons_self y ys)
      · exact Or.inr (List.mem_cons_of_mem y hcase)

lemma listMin_le_of_mem {xs : List ℕ} {x : ℕ} (h : x ∈ xs) :
    listMin xs ≤ x := by
  cases xs with
  | nil => cases h
  | cons a as =>
      rcases List.mem_cons.mp h with rfl | h'
      · exact foldl_min_le_init as x
      · exact foldl_min_le_of_mem as a x h'

lemma le_listMax_of_mem {xs : List ℕ} {x : ℕ} (h : x ∈ xs) :
    x ≤ listMax xs := by
  cases xs with
  | nil => cases h
  | cons a as =>
      rcases List.mem_cons.mp h with rfl | h'
      · exact le_foldl_max_init as x
      · exact le_foldl_max_of_mem as a x h'

lemma listMin_mem {xs : List ℕ} (h : xs ≠ []) : listMin xs ∈ xs := by
  cases xs with
  | nil => exact absurd rfl h
  | cons a as =>
      rcases foldl_min_mem as a with hcase | hcase
      · rw [listMin, hcase]; exact List.mem_cons_self a as
      · exact List.mem_cons_of_mem a hcase

lemma listMax_mem {xs : List ℕ} (h : xs ≠ []) : listMax xs ∈ xs := by
  cases xs with
  | nil => exact absurd rfl h
  | cons a as =>
      rcases foldl_max_mem as a with hcase | hcase
      · rw [listMax, hcase]; exact List.mem_cons_self a as
      · exact List.mem_cons_of_mem a hcase

lemma minX_le_maxX (c : Contour) : minX c ≤ maxX c := by
  cases c with
  | nil => exact le_rfl
  | cons p ps =>
      have h1 : minX (p :: ps) ≤ p.1 :=
        listMin_le_of_mem (show p.1 ∈ (p :: ps).map Prod.fst by simp)
      have h2 : p.1 ≤ maxX (p :: ps) :=
        le_listMax_of_mem (show p.1 ∈ (p :: ps).map Prod.fst by simp)
      exact h1.trans h2

lemma foldl_pickLarger_spec (xs : List Contour) :
    ∀ a : Contour, ∃ l₁ l₂,
      a :: xs = l₁ ++ (xs.foldl pickLarger a) :: l₂ ∧
      (∀ c ∈ l₁, contourArea c < contourArea (xs.foldl pickLarger a)) ∧
      (∀ c ∈ a :: xs, contourArea c ≤ contourArea (xs.foldl pickLarger a)) := by
  induction xs with
  | nil =>
      intro a
      exact ⟨[], [], rfl, by simp, by simp⟩
  | cons x xs ih =>
      intro a
      have hfold : (x :: xs).foldl pickLarger a = xs.foldl pickLarger (pickLarger a x) := rfl
      obtain ⟨l₁, l₂, hdec, hlt, hle⟩ := ih (pickLarger a x)
      by_cases hax : contourArea a < contourArea x
      · have hpick : pickLarger a x = x := by unfold pickLarger; rw [if_pos hax]
        rw [hpick] at hdec hlt hle
        have hxr : contourArea x ≤ contourArea (xs.foldl pickLarger x) :=
          hle x (List.mem_cons_self x xs)
        refine ⟨a :: l₁, l₂, ?_, ?_, ?_⟩
        · rw [hfold, hpick, List.cons_append, ← hdec]
        · intro c hc
          rw [hfold, hpick]
          rcases List.mem_cons.mp hc with rfl | hc'
          · exact lt_of_lt_of_le hax hxr
          · exact hlt c hc'
        · intro c hc
          rw [hfold, hpick]
          rcases List.mem_cons.mp hc with rfl | hc'
          · exact le_of_lt (lt_of_lt_of_le hax hxr)
          · exact hle c hc'
      · have hpick : pickLarger a x = a := by unfold pickLarger; rw [if_neg hax]
        have hxa : contourArea x ≤ contourArea a := not_lt.mp hax
        rw [hpick] at hdec hlt hle
        have har : contourArea a ≤ contourArea (xs.foldl pickLarger a) :=
          hle a (List.mem_cons_self a xs)
        cases l₁ with
        | nil =>
            have hinj := List.cons.inj (by simpa using hdec)
            obtain ⟨ha, hxs⟩ := hinj
            refine ⟨[], x :: xs, ?_, by simp, ?_⟩
            · rw [hfold, hpick, List.nil_append, ← ha]
            · intro c hc
              rw [hfold, hpick]
              rcases List.mem_cons.mp hc with rfl | hc'
              · exact har
              · rcases List.mem_cons.mp hc' with rfl | hc''
                · exact hxa.trans har
                · exact hle c (List.mem_cons_of_mem a hc'')
        | cons b l₁' =>
            have hinj := List.cons.inj (by simpa using hdec)
            obtain ⟨hab, hxs⟩ := hinj
            have hbr : contourArea b < contourArea (xs.foldl pickLarger a) :=
              hlt b (List.mem_cons_self b l₁')
            have har' : contourArea a < contourArea (xs.foldl pickLarger a) := by
              rw [← hab] at hbr
              exact hbr
            refine ⟨a :: x :: l₁', l₂, ?_, ?_, ?_⟩
            · rw [hfold, hpick]
              calc a :: x :: xs
                  = a :: x :: (l₁' ++ xs.foldl pickLarger a :: l₂) := by rw [← hxs]
                _ = (a :: x :: l₁') ++ xs.foldl pickLarger a :: l₂ := by simp
            · intro c hc
              rw [hfold, hpick]
              rcases List.mem_cons.mp hc with rfl | hc'
              · exact har'
              · rcases List.mem_cons.mp hc' with rfl | hc''
                · exact lt_of_le_of_lt hxa har'
                · exact hlt c (List.mem_cons_of_mem b hc'')
            · intro c hc
              rw [hfold, hpick]
              rcases List.mem_cons.mp hc with rfl | hc'
              · exact har
              · rcases List.mem_cons.mp hc' with rfl | hc''
                · exact hxa.trans har
                · exact hle c (List.mem_cons_of_mem a hc'')

lemma calc_none_of_no_contours (img : Image)
    (h : pipelineContours img = []) :
    calculate_foot_size (LoadResult.ok img) = none := by
  simp [calculate_foot_size, calculate_foot_size_logged, h, selectLargest]

lemma round2_nonneg (q : ℚ) (hq : 0 ≤ q) : 0 ≤ round2 q := by
  unfold round2
  have h1 : (0 : ℤ) ≤ round (q * 100) := by
    rw [round_eq]
    refine Int.floor_nonneg.mpr ?_
    have : (0 : ℚ) ≤ q * 100 := by positivity
    linarith
  have h2 : (0 : ℚ) ≤ ((round (q * 100) : ℤ) : ℚ) := Int.cast_nonneg.mpr h1
  positivity

lemma kernel5_weighted_const (q : ℚ) :
    (kernel5.map (fun kv => kv.2 * q)).sum = q := by
  simp [kernel5]
  ring

lemma smoothH_const (g : Grid ℚ) (c : ℚ) (h : ∀ x y, g.data x y = c) :
    ∀ x y, (smoothH g).data x y = c := by
  intro x y
  simp only [smoothH, gridAt, h]
  exact kernel5_weighted_const c

/-- C9: for every grid whose pixels all hold the same intensity value,
`smooth` (Gaussian blur with a square odd-size kernel) returns a grid equal
to its input. -/
theorem smooth_uniform_identity (g : Grid ℚ) (c : ℚ)
    (h : ∀ x y, g.data x y = c) : smooth g = g := by
  have hH := smoothH_const g c h
  refine Grid.ext ?_ ?_ ?_
  · rfl
  · rfl
  · funext x y
    show (smooth g).data x y = g.data x y
    simp only [smooth, gridAt, hH, h]
    exact kernel5_weighted_const c

/-- Witness for C9 at the concrete uniform 2×3 grid of intensity 7. -/
theorem smooth_uniform_identity_inst : smooth uniformGrid = uniformGrid :=
  smooth_uniform_identity uniformGrid 7 (fun _ _ => rfl)

/-- C5 counterexample: on the concrete ramp grid with thresholds 50 < 150,
the in-range pixel (2, 0) has gradient magnitude above `high` yet is not
classified as an edge — non-maximum suppression discards it because its
neighbour along the gradient direction has a larger magnitude — refuting
the claim that a magnitude above `high` alone makes a pixel an edge. -/
theorem nms_suppressed_strong_pixel :
    (50 : ℚ) < 150 ∧ (2, 0) ∈ positions rampGrid ∧
    150 < gradMag rampGrid (2, 0) ∧
    (2, 0) ∉ detectEdges rampGrid 50 150 := by
  refine ⟨by norm_num, by decide, ?_, ?_⟩
  · with_unfolding_all decide
  · with_unfolding_all decide

/-- C5 (amended): for every intensity grid and thresholds `low < high`,
`detectEdges` classifies an in-range pixel as an edge iff it survives
non-maximum suppression across its gradient direction and either its
gradient magnitude exceeds `high`, or its magnitude lies strictly between
`low` and `high` and it is 8-adjacent to a pixel already classified as an
edge; all other pixels — including above-`high` pixels suppressed by NMS —
are non-edges. -/
theorem detectEdges_hysteresis_nms_spec (g : Grid ℚ) (low high : ℚ)
    (hlh : low < high) (p : Pos) (hp : p ∈ positions g) :
    p ∈ detectEdges g low high ↔
      (nmsPass g p ∧ high < gradMag g p) ∨
        ((nmsPass g p ∧ low < gradMag g p ∧ gradMag g p < high) ∧
          ∃ q ∈ detectEdges g low high, adj8 p q) := by
  conv_lhs => rw [← detectEdges_fixed g low high]
  unfold hystStep
  rw [Finset.mem_filter]
  simp [hp]

/-- Witness for the amended C5 at the 1×1 test grid with thresholds
50 < 150. -/
theorem detectEdges_hysteresis_nms_spec_inst :
    (0, 0) ∈ detectEdges (grayscale blankImg) 50 150 ↔
      (nmsPass (grayscale blankImg) (0, 0) ∧
          150 < gradMag (grayscale blankImg) (0, 0)) ∨
        ((nmsPass (grayscale blankImg) (0, 0) ∧
            50 < gradMag (grayscale blankImg) (0, 0) ∧
            gradMag (grayscale blankImg) (0, 0) < 150) ∧
          ∃ q ∈ detectEdges (grayscale blankImg) 50 150, adj8 (0, 0) q) :=
  detectEdges_hysteresis_nms_spec (grayscale blankImg) 50 150 (by norm_num)
    (0, 0) (by decide)

/-- C10: `calculate_foot_size` is total: for every load result it returns
either `none` or a non-negative value that is an integer number of
hundredths (two decimal digits); every failure path yields `none`, never an
error. -/
theorem calculate_foot_size_total (r : LoadResult) :
    calculate_foot_size r = none ∨
      ∃ q : ℚ, calculate_foot_size r = some q ∧ 0 ≤ q ∧
        ∃ n : ℤ, q = (n : ℚ) / 100 := by
  cases r with
  | fail => exact Or.inl rfl
  | ok img =>
      cases hsel : selectLargest (pipelineContours img) with
      | none =>
          left
          simp [calculate_foot_size, calculate_foot_size_logged, hsel]
      | some c =>
          right
          refine ⟨measureContour c CONVERSION_FACTOR, ?_, ?_, ?_⟩
          · simp [calculate_foot_size, calculate_foot_size_logged, hsel]
          · have hmm : (minX c : ℤ) ≤ (maxX c : ℤ) :=
              Int.ofNat_le.mpr (minX_le_maxX c)
            have hw : (0 : ℚ) ≤ (((maxX c : ℤ) - (minX c : ℤ) : ℤ) : ℚ) := by
              have : (0 : ℤ) ≤ (maxX c : ℤ) - (minX c : ℤ) := by omega
              exact_mod_cast this
            have hf : (0 : ℚ) ≤ CONVERSION_FACTOR := by
              norm_num [CONVERSION_FACTOR]
            exact round2_nonneg _ (mul_nonneg hw hf)
          · exact ⟨round ((((maxX c : ℤ) - (minX c : ℤ) : ℤ) : ℚ) *
              CONVERSION_FACTOR * 100), rfl⟩

/-- C8: `measureObject` is deterministic and idempotent: with the explicit
log state of the source's `logging` calls threaded through, a second
invocation with identical decoder, bytes and conversion factor returns the
same result, and the result is independent of the ambient log state. -/
theorem measureObject_deterministic_idempotent
    (decode : List ℕ → LoadResult) (bytes : List ℕ) (factor : ℚ)
    (log log' : List String) :
    (measureObject decode bytes factor
        ((measureObject decode bytes factor log).2)).1 =
      (measureObject decode bytes factor log).1 ∧
    (measureObject decode bytes factor log').1 =
      (measureObject decode bytes factor log).1 := by
  have hres : ∀ l : List String,
      (calculate_foot_size_logged (decode bytes) factor l).1 =
        (calculate_foot_size_logged (decode bytes) factor []).1 := by
    intro l
    cases hdec : decode bytes with
    | fail => rfl
    | ok img =>
        cases hsel : selectLargest (pipelineContours img) with
        | none => simp [calculate_foot_size_logged, hsel]
        | some c => simp [calculate_foot_size_logged, hsel]
  unfold measureObject
  exact ⟨(hres _).trans (hres _).symm, (hres _).trans (hres _).symm⟩

/-- C1: the Measurer computes the axis-aligned bounding box as the min/max
of the contour's x and y coordinates (it encloses every point and attains
its bounds); the returned length is `boundingBox.width * conversionFactor`
rounded to two decimal digits; and the bounding-box height plays no part in
the returned measurement (the result depends only on the x coordinates). -/
theorem measurer_bbox_spec (c : Contour) (factor : ℚ) (hc : c ≠ []) :
    measureContour c factor =
      round2 ((((maxX c : ℤ) - (minX c : ℤ) : ℤ) : ℚ) * factor) ∧
    (∀ p ∈ c, minX c ≤ p.1 ∧ p.1 ≤ maxX c ∧ minY c ≤ p.2 ∧ p.2 ≤ maxY c) ∧
    ((∃ p ∈ c, p.1 = minX c) ∧ (∃ p ∈ c, p.1 = maxX c) ∧
      (∃ p ∈ c, p.2 = minY c) ∧ (∃ p ∈ c, p.2 = maxY c)) ∧
    (∀ c' : Contour, c'.map Prod.fst = c.map Prod.fst →
      measureContour c' factor = measureContour c factor) := by
  refine ⟨rfl, ?_, ?_, ?_⟩
  · intro p hp
    have h1 : p.1 ∈ c.map Prod.fst := List.mem_map_of_mem Prod.fst hp
    have h2 : p.2 ∈ c.map Prod.snd := List.mem_map_of_mem Prod.snd hp
    exact ⟨listMin_le_of_mem h1, le_listMax_of_mem h1,
      listMin_le_of_mem h2, le_listMax_of_mem h2⟩
  · have hmapf : c.map Prod.fst ≠ [] := by
      cases c with
      | nil => exact absurd rfl hc
      | cons p ps => simp
    have hmaps : c.map Prod.snd ≠ [] := by
      cases c with
      | nil => exact absurd rfl hc
      | cons p ps => simp
    refine ⟨?_, ?_, ?_, ?_⟩
    · obtain ⟨p, hp, hfst⟩ := List.mem_map.mp (listMin_mem hmapf)
      exact ⟨p, hp, hfst⟩
    · obtain ⟨p, hp, hfst⟩ := List.mem_map.mp (listMax_mem hmapf)
      exact ⟨p, hp, hfst⟩
    · obtain ⟨p, hp, hsnd⟩ := List.mem_map.mp (listMin_mem hmaps)
      exact ⟨p, hp, hsnd⟩
    · obtain ⟨p, hp, hsnd⟩ := List.mem_map.mp (listMax_mem hmaps)
      exact ⟨p, hp, hsnd⟩
  · intro c' hmap
    unfold measureContour boundingRect maxX minX
    rw [hmap]

/-- Witness for C1 at the concrete two-point contour `[(1,2), (4,0)]` with
conversion factor 1/5. -/
theorem measurer_bbox_spec_inst :
    measureContour mContour (1 / 5) =
      round2 ((((maxX mContour : ℤ) - (minX mContour : ℤ) : ℤ) : ℚ) *
        (1 / 5)) ∧
    (∀ p ∈ mContour, minX mContour ≤ p.1 ∧ p.1 ≤ maxX mContour ∧
      minY mContour ≤ p.2 ∧ p.2 ≤ maxY mContour) ∧
    ((∃ p ∈ mContour, p.1 = minX mContour) ∧
      (∃ p ∈ mContour, p.1 = maxX mContour) ∧
      (∃ p ∈ mContour, p.2 = minY mContour) ∧
      (∃ p ∈ mContour, p.2 = maxY mContour)) ∧
    (∀ c' : Contour, c'.map Prod.fst = mContour.map Prod.fst →
      measureContour c' (1 / 5) = measureContour mContour (1 / 5)) :=
  measurer_bbox_spec mContour (1 / 5) (by decide)

/-- C2: for every non-empty list of contours the Candidate Selector returns
a contour of the input list whose enclosed area (shoelace formula) is
maximal, and every contour listed before the returned one has strictly
smaller area (first-encountered tie-breaking). -/
theorem selectLargest_spec (cs : List Contour) (hne : cs ≠ []) :
    ∃ r, selectLargest cs = some r ∧ r ∈ cs ∧
      (∀ c ∈ cs, contourArea c ≤ contourArea r) ∧
      ∃ l₁ l₂, cs = l₁ ++ r :: l₂ ∧
        ∀ c ∈ l₁, contourArea c < contourArea r := by
  cases cs with
  | nil => exact absurd rfl hne
  | cons a xs =>
      obtain ⟨l₁, l₂, hdec, hlt, hle⟩ := foldl_pickLarger_spec xs a
      refine ⟨xs.foldl pickLarger a, rfl, ?_, hle, l₁, l₂, hdec, hlt⟩
      rw [hdec]
      exact List.mem_append_right l₁ (List.mem_cons_self _ _)

/-- Witness for C2 at the concrete contour list [point, triangle]: the
triangle (area 2) is selected over the single point (area 0). -/
theorem selectLargest_spec_inst :
    ∃ r, selectLargest [dotContour, triContour] = some r ∧
      r ∈ [dotContour, triContour] ∧
      (∀ c ∈ [dotContour, triContour], contourArea c ≤ contourArea r) ∧
      ∃ l₁ l₂, [dotContour, triContour] = l₁ ++ r :: l₂ ∧
        ∀ c ∈ l₁, contourArea c < contourArea r :=
  selectLargest_spec [dotContour, triContour] (by decide)

/-- C6: `findContours` retains only topologically outermost boundaries —
every returned contour is an outermost component, every non-outermost
(nested) component is discarded — and on an edge map with no edge pixels it
returns the empty list rather than a failure. -/
theorem findContours_outer_spec (E : Finset Pos) (w h : ℕ)
    (hE : ∀ p ∈ E, p.1 < w ∧ p.2 < h) :
    (∀ c ∈ findContours E w h, ∃ comp ∈ components E w h,
      IsOutermost E w h comp ∧ c = toContourList w h comp) ∧
    (∀ comp ∈ components E w h, ¬ IsOutermost E w h comp →
      toContourList w h comp ∉ findContours E w h) ∧
    (E = ∅ → findContours E w h = []) := by
  refine ⟨?_, ?_, ?_⟩
  · intro c hc
    simp only [findContours, List.mem_map, List.mem_filter,
      decide_eq_true_eq] at hc
    obtain ⟨comp, ⟨hmem, hout⟩, rfl⟩ := hc
    exact ⟨comp, hmem, hout, rfl⟩
  · intro comp hcomp hnot hmem
    simp only [findContours, List.mem_map, List.mem_filter,
      decide_eq_true_eq] at hmem
    obtain ⟨comp', ⟨hmem', hout'⟩, heq⟩ := hmem
    have hsub : comp ⊆ E := by
      obtain ⟨p, hp, rfl⟩ := (mem_components E w h comp).mp hcomp
      exact reachFrom_subset E p
    have hsub' : comp' ⊆ E := by
      obtain ⟨p, hp, rfl⟩ := (mem_components E w h comp').mp hmem'
      exact reachFrom_subset E p
    have hcc : comp' = comp := by
      apply Finset.ext
      intro q
      constructor
      · intro hq
        have hb := hE q (hsub' hq)
        have h1 : q ∈ toContourList w h comp' :=
          (mem_toContourList w h comp' q).mpr ⟨hb, hq⟩
        rw [heq] at h1
        exact ((mem_toContourList w h comp q).mp h1).2
      · intro hq
        have hb := hE q (hsub hq)
        have h1 : q ∈ toContourList w h comp :=
          (mem_toContourList w h comp q).mpr ⟨hb, hq⟩
        rw [← heq] at h1
        exact ((mem_toContourList w h comp' q).mp h1).2
    rw [hcc] at hout'
    exact hnot hout'
  · intro hE0
    subst hE0
    simp [findContours, components]

/-- Witness for C6: on the empty 2×2 edge map the Contour Finder returns
the empty list. -/
theorem findContours_outer_spec_inst : findContours ∅ 2 2 = [] :=
  (findContours_outer_spec ∅ 2 2 (by decide)).2.2 rfl

/-- C7: every pipeline stage's output grid or edge map has the same width
and height as the decoded image (no stage resizes), and every point of
every contour produced by the Contour Finder lies within
`[0, width) × [0, height)`. -/
theorem pipeline_dims_invariant (img : Image) :
    (grayscale img).width = img.width ∧
    (grayscale img).height = img.height ∧
    (smooth (grayscale img)).width = img.width ∧
    (smooth (grayscale img)).height = img.height ∧
    (edgeMapOf (smooth (grayscale img)) 50 150).width = img.width ∧
    (edgeMapOf (smooth (grayscale img)) 50 150).height = img.height ∧
    ∀ c ∈ pipelineContours img, ∀ p ∈ c,
      p.1 < img.width ∧ p.2 < img.height := by
  refine ⟨rfl, rfl, rfl, rfl, rfl, rfl, ?_⟩
  intro c hc p hp
  simp only [pipelineContours, findContours, List.mem_map] at hc
  obtain ⟨comp, hmem, rfl⟩ := hc
  exact ((mem_toContourList _ _ comp p).mp hp).1

/-- Witness for C7 at the concrete 1×1 test image. -/
theorem pipeline_dims_invariant_inst :
    (grayscale blankImg).width = blankImg.width ∧
    (grayscale blankImg).height = blankImg.height ∧
    (smooth (grayscale blankImg)).width = blankImg.width ∧
    (smooth (grayscale blankImg)).height = blankImg.height ∧
    (edgeMapOf (smooth (grayscale blankImg)) 50 150).width = blankImg.width ∧
    (edgeMapOf (smooth (grayscale blankImg)) 50 150).height =
      blankImg.height ∧
    ∀ c ∈ pipelineContours blankImg, ∀ p ∈ c,
      p.1 < blankImg.width ∧ p.2 < blankImg.height :=
  pipeline_dims_invariant blankImg

/-- C3 counterexample: the no-measurable-object outcome (a `none`
measurement, answered with the 400 could-not-detect response) is also
triggered by a decoder failure, in which no contour set — empty or
otherwise — was ever produced; the empty contour set is therefore not its
sole trigger. -/
theorem no_object_outcome_from_load_failure :
    calculate_foot_size LoadResult.fail = none ∧
    upload_image ⟨true, pngPayload, LoadResult.fail⟩ =
      (400, ("Nao foi possivel detectar o pe na imagem."), none) := by
  constructor
  · rfl
  · with_unfolding_all decide

/-- C3 (amended): when the Contour Finder yields an empty contour list, the
Candidate Selector returns `none` (never an exception) and the pipeline's
result is absent — never a fabricated measurement value; but this is not the
sole trigger of the absent outcome (see the counterexample). -/
theorem empty_contours_give_absent_result (img : Image)
    (h : pipelineContours img = []) :
    selectLargest (pipelineContours img) = none ∧
    calculate_foot_size (LoadResult.ok img) = none ∧
    ∀ q : ℚ, calculate_foot_size (LoadResult.ok img) ≠ some q := by
  have hsel : selectLargest (pipelineContours img) = none := by rw [h]; rfl
  have hnone := calc_none_of_no_contours img h
  refine ⟨hsel, hnone, fun q hq => ?_⟩
  rw [hnone] at hq
  cases hq

/-- Witness for the amended C3 at the concrete 1×1 test image. -/
theorem empty_contours_give_absent_result_inst :
    selectLargest (pipelineContours blankImg) = none ∧
    calculate_foot_size (LoadResult.ok blankImg) = none ∧
    ∀ q : ℚ, calculate_foot_size (LoadResult.ok blankImg) ≠ some q :=
  empty_contours_give_absent_result blankImg (by with_unfolding_all decide)

/-- C4 counterexample: an unloadable image and an image in which no contour
is found produce the identical caller-visible outcome — the same 400
could-not-detect response — so the rejected-input outcome is not distinct
from the could-not-measure outcome. -/
theorem decode_failure_response_not_distinct :
    upload_image ⟨true, pngPayload, LoadResult.fail⟩ =
      upload_image ⟨true, pngPayload, LoadResult.ok blankImg⟩ ∧
    upload_image ⟨true, pngPayload, LoadResult.ok blankImg⟩ =
      (400, ("Nao foi possivel detectar o pe na imagem."), none) := by
  constructor
  · with_unfolding_all decide
  · with_unfolding_all decide

/-- C4 (amended): a decode failure and a no-contour image yield the same
caller-visible outcome: `calculate_foot_size` returns `none` for both, and
`upload_image` answers both with the same 400 could-not-detect response. -/
theorem decode_failure_same_outcome (img : Image) (d : List Char)
    (h : pipelineContours img = []) :
    upload_image ⟨true, d, LoadResult.fail⟩ =
      upload_image ⟨true, d, LoadResult.ok img⟩ := by
  have h1 : calculate_foot_size LoadResult.fail = none := rfl
  have h2 := calc_none_of_no_contours img h
  simp [upload_image, h1, h2]

/-- Witness for the amended C4 at the concrete 1×1 test image and PNG
payload. -/
theorem decode_failure_same_outcome_inst :
    upload_image ⟨true, pngPayload, LoadResult.fail⟩ =
      upload_image ⟨true, pngPayload, LoadResult.ok blankImg⟩ :=
  decode_failure_same_outcome blankImg pngPayload
    (by with_unfolding_all decide)
